import Mathlib

/-!
# Verification of the `simple_server` thread pool (`src/lib.rs`)

A shallow embedding of the Rust thread pool: `ThreadPool::new`,
`ThreadPool::execute`, `ThreadPool::drop`, and the `Worker` receive loop,
together with a small-step interleaving model of the `mpsc` channel shared
through `Arc<Mutex<Receiver<Job>>>`.

Conventions:
* a Rust `panic!` / failed `unwrap` is modelled by `Option.none`;
* a thread `JoinHandle<()>` is modelled by its presence only (`Option Unit`);
* the `mpsc::Sender<Job>` held in `ThreadPool.sender` is likewise modelled
  by presence (`Option Unit`);
* Jobs are tagged with natural-number identities so that exactly-once
  delivery is expressible; the Rust `Job = Box<dyn FnOnce() + Send>` is
  opaque, so only a job's identity and termination behaviour are modelled.
-/

namespace SimpleServer

/-- A `Worker` (lib.rs 88–91): an `id` and an optional join handle
(`thread: Option<thread::JoinHandle<()>>`), the handle modelled by
presence. -/
structure Worker where
  id : Nat
  thread : Option Unit
deriving Repr, DecidableEq

/-- The `ThreadPool` struct (lib.rs 7–11): a vector of workers and the
optional producer handle `sender: Option<mpsc::Sender<Job>>`, modelled by
presence. -/
structure ThreadPool where
  workers : List Worker
  sender : Option Unit
deriving Repr, DecidableEq

/-- `ThreadPool::new` (lib.rs 32–47).  `assert!(size > 0)` panics on
`size = 0` (modelled as `none`); otherwise a channel is created, `size`
workers with ids `0, 1, …, size-1` are spawned (each holding a live join
handle), and the pool keeps the sender as `Some(sender)`. -/
def ThreadPool.new (size : Nat) : Option ThreadPool :=
  if size > 0 then
    some { workers := (List.range size).map (fun id => { id := id, thread := some () }),
           sender := some () }
  else
    none

/-- Projection used to state construction facts without binders: the list of
worker ids in vector order, paired with the sender field. -/
def poolSummary (p : ThreadPool) : List Nat × Option Unit :=
  (p.workers.map Worker.id, p.sender)

/-- `ThreadPool::execute` (lib.rs 65–71):
`self.sender.as_ref().unwrap().send(job).unwrap()`.  If the sender has been
released (`None`), the first `unwrap` panics (`none`); otherwise the job is
handed to the channel (`some job`). -/
def ThreadPool.execute (p : ThreadPool) (job : Nat) : Option Nat :=
  match p.sender with
  | some _ => some job
  | none => none

/-- The first statement of `ThreadPool::drop` (lib.rs 77):
`drop(self.sender.take())` — the sender field is left `None`; everything
else in the pool is untouched. -/
def ThreadPool.releaseSender (p : ThreadPool) : ThreadPool :=
  { p with sender := none }

/-- Observable events of `ThreadPool::drop`, in program order. -/
inductive DropEvent where
  | releaseSender
  | join (id : Nat)
deriving Repr, DecidableEq

/-- The loop of `ThreadPool::drop` (lib.rs 79–83): for each worker in
order, `if let Some(thread) = worker.thread.take()` the handle is taken
(left `None`) and joined, emitting a `join` event; a worker whose handle is
already gone is skipped. Returns the updated workers and the join trace. -/
def joinWorkers : List Worker → List Worker × List DropEvent
  | [] => ([], [])
  | w :: ws =>
      let rest := joinWorkers ws
      match w.thread with
      | some _ => ({ w with thread := none } :: rest.1, DropEvent.join w.id :: rest.2)
      | none => (w :: rest.1, rest.2)

/-- `ThreadPool::drop` (lib.rs 76–84): first `drop(self.sender.take())`
(the `releaseSender` event), then join every worker's owned handle in
order.  Returns the post-drop pool and the full event trace. -/
def ThreadPool.dropPool (p : ThreadPool) : ThreadPool × List DropEvent :=
  let rest := joinWorkers p.workers
  ({ workers := rest.1, sender := none }, DropEvent.releaseSender :: rest.2)

/-- Trace check: the first event is the sender release and every later
event is a thread join — so the release strictly precedes every join and
never reoccurs or interleaves. -/
def releaseFirst : List DropEvent → Bool
  | DropEvent.releaseSender :: evs =>
      evs.all (fun e => match e with
        | DropEvent.join _ => true
        | DropEvent.releaseSender => false)
  | _ => false

/-- The worker ids of the join events of a trace, in order. -/
def joinEvents (evs : List DropEvent) : List Nat :=
  evs.filterMap (fun e => match e with
    | DropEvent.join k => some k
    | DropEvent.releaseSender => none)

/- ### Theorems: construction -/

/-- C3: `ThreadPool::new` panics exactly on `size = 0`
(`assert!(size > 0)`, lib.rs 33), and every pool it ever returns has at
least one worker. -/
theorem new_panics_iff_zero :
    (∀ size, ThreadPool.new size = none ↔ size = 0) ∧
    (∀ size p, ThreadPool.new size = some p → 1 ≤ p.workers.length) := by
  constructor
  · intro size
    constructor
    · intro h
      by_contra hne
      have hpos : size > 0 := Nat.pos_of_ne_zero hne
      simp [ThreadPool.new, hpos] at h
    · intro h
      subst h
      simp [ThreadPool.new]
  · intro size p hp
    by_cases hpos : size > 0
    · simp [ThreadPool.new, hpos] at hp
      subst hp
      simpa using hpos
    · simp [ThreadPool.new, hpos] at hp

/-- C3 witness: at the concrete input `size = 0`, construction panics. -/
theorem new_panics_iff_zero_witness : ThreadPool.new 0 = none :=
  (new_panics_iff_zero.1 0).mpr rfl

/-- C4: for every `size ≥ 1`, construction succeeds and the resulting pool
has exactly `size` workers whose ids, in vector order, are `0, …, size-1`
(so the worker at index `i` has id `i` and ids are distinct), with the
producer handle present (`Some`). -/
theorem new_pos_structure (size : Nat) (h : 1 ≤ size) :
    (ThreadPool.new size).map poolSummary = some (List.range size, some ()) := by
  have hpos : size > 0 := h
  have hid : (Worker.id ∘ fun id => ({ id := id, thread := some () } : Worker)) = id := rfl
  simp [ThreadPool.new, hpos, poolSummary, List.map_map, hid]

/-- C4 witness: a size-3 pool has workers with ids `[0, 1, 2]` (the third
worker's id is `2`) and a present sender. -/
theorem new_pos_structure_witness :
    (ThreadPool.new 3).map poolSummary = some (List.range 3, some ()) :=
  new_pos_structure 3 (by decide)

/- ### Theorems: shutdown (`ThreadPool::drop`) -/

lemma joinWorkers_events (ws : List Worker) :
    joinEvents (joinWorkers ws).2
      = (ws.filter (fun w => w.thread.isSome)).map Worker.id := by
  induction ws with
  | nil => rfl
  | cons w ws ih =>
      cases hw : w.thread with
      | some u => simp [joinWorkers, hw, joinEvents, List.filter, ih, joinEvents] at ih ⊢
                  exact ih
      | none => simp [joinWorkers, hw, joinEvents, List.filter] at ih ⊢
                exact ih

lemma joinWorkers_all_none (ws : List Worker) :
    ((joinWorkers ws).1.all (fun w => w.thread.isNone)) = true := by
  induction ws with
  | nil => rfl
  | cons w ws ih =>
      cases hw : w.thread with
      | some u => simpa [joinWorkers, hw] using ih
      | none => simpa [joinWorkers, hw] using ih

lemma joinWorkers_only_joins (ws : List Worker) :
    ∀ e ∈ (joinWorkers ws).2, ∃ k, e = DropEvent.join k := by
  induction ws with
  | nil => intro e he; simp [joinWorkers] at he
  | cons w ws ih =>
      intro e he
      cases hw : w.thread with
      | some u =>
          simp [joinWorkers, hw] at he
          rcases he with he | he
          · exact ⟨w.id, he⟩
          · exact ih e he
      | none =>
          simp [joinWorkers, hw] at he
          exact ih e he

/-- C2: in `ThreadPool::drop`, the producer handle is released strictly
before any worker is joined: the event trace starts with `releaseSender`
and every subsequent event is a `join` — no join precedes or interleaves
with the release. -/
theorem release_before_join (p : ThreadPool) :
    releaseFirst (p.dropPool).2 = true := by
  have honly := joinWorkers_only_joins p.workers
  simp only [ThreadPool.dropPool, releaseFirst, List.all_eq_true]
  intro e he
  rcases honly e he with ⟨k, hk⟩
  subst hk
  rfl

/-- C9: in `ThreadPool::drop` each worker's handle is consumed exactly
once: the join events are exactly one per worker that still owns a handle,
in vector order; afterwards no worker owns a handle; and dropping the
already-dropped pool performs no join at all (no double-join). -/
theorem join_exactly_once (p : ThreadPool) :
    joinEvents (p.dropPool).2
        = (p.workers.filter (fun w => w.thread.isSome)).map Worker.id ∧
    ((p.dropPool).1.workers.all (fun w => w.thread.isNone)) = true ∧
    joinEvents ((p.dropPool).1.dropPool).2 = [] := by
  refine ⟨?_, ?_, ?_⟩
  · simpa [ThreadPool.dropPool, joinEvents] using joinWorkers_events p.workers
  · simpa [ThreadPool.dropPool] using joinWorkers_all_none p.workers
  · have hnone := joinWorkers_all_none p.workers
    simp only [List.all_eq_true] at hnone
    simp only [ThreadPool.dropPool, joinEvents, List.filterMap]
    have := joinWorkers_events (joinWorkers p.workers).1
    simp only [joinEvents] at this
    rw [this]
    have hfilter : ((joinWorkers p.workers).1.filter (fun w => w.thread.isSome)) = [] := by
      rw [List.filter_eq_nil_iff]
      intro w hw
      have := hnone w hw
      simp [Option.isNone_iff_eq_none] at this
      simp [this]
    rw [hfilter]
    rfl

/-- C10: releasing the producer handle when it is already released
(`self.sender.take()` on a `None` field) is a no-op: the pool is left
completely unchanged. -/
theorem release_idempotent (p : ThreadPool) (h : p.sender = none) :
    p.releaseSender = p := by
  cases p with
  | mk workers sender =>
      simp only at h
      subst h
      rfl

/-- C10 witness: releasing the already-released sender of a concrete
one-worker pool leaves the pool unchanged. -/
theorem release_idempotent_witness :
    (⟨[⟨0, some ()⟩], none⟩ : ThreadPool).releaseSender
      = (⟨[⟨0, some ()⟩], none⟩ : ThreadPool) :=
  release_idempotent ⟨[⟨0, some ()⟩], none⟩ rfl

/- ### Theorems: submit (`ThreadPool::execute`) -/

/-- C7: calling `execute` after shutdown has released the sender panics
(the `unwrap` on `self.sender.as_ref()`, lib.rs 70, modelled as `none`);
the job is never silently handed off or discarded as a success. -/
theorem execute_after_release_panics (p : ThreadPool) (job : Nat)
    (h : p.sender = none) :
    p.execute job = none := by
  simp [ThreadPool.execute, h]

/-- C7 witness: submitting job `42` to a concrete pool whose sender was
released panics. -/
theorem execute_after_release_panics_witness :
    (⟨[⟨0, some ()⟩], none⟩ : ThreadPool).execute 42 = none :=
  execute_after_release_panics ⟨[⟨0, some ()⟩], none⟩ 42 rfl

/- ### Interleaving model of the shared channel

`ThreadPool::new` (lib.rs 35–36) creates one `mpsc::channel` and wraps the
single receiver in `Arc<Mutex<…>>`; every worker's loop does
`receiver.lock().unwrap().recv()` (lib.rs 118), so the mutex is held for
the whole `recv` call and each receive attempt is one atomic step.  Jobs
are identified by the `Nat` tag given at submission. -/

/-- Global state of the channel system: the buffered jobs in FIFO order,
whether the sender has been dropped, the jobs accepted by `send` in
submission order, the `(job, worker)` deliveries in dequeue order, and the
workers that have observed `Err(_)` and exited their loop. -/
structure SysState where
  buffer : List Nat
  closed : Bool
  accepted : List Nat
  delivered : List (Nat × Nat)
  terminated : List Nat
deriving Repr, DecidableEq

/-- One scheduler action: a caller's `send` of a tagged job, the drop of
the sender (`drop(self.sender.take())`), or worker `w` completing one
`receiver.lock().unwrap().recv()` attempt. -/
inductive Action where
  | send (j : Nat)
  | close
  | recv (w : Nat)
deriving Repr, DecidableEq

/-- The empty channel right after `mpsc::channel()`. -/
def SysState.init : SysState :=
  { buffer := [], closed := false, accepted := [], delivered := [], terminated := [] }

/-- One interleaving step.  `send` appends to the FIFO buffer while the
sender is alive; `close` marks the sender dropped; `recv w` (atomic, the
mutex is held across the whole `recv`) pops the FIFO head and records its
delivery to `w`, or — when the buffer is empty and the sender dropped —
returns `Err(_)`, upon which `w` exits its loop; with an empty buffer and a
live sender the call blocks (no state change). -/
def step (s : SysState) : Action → SysState
  | Action.send j =>
      if s.closed then s
      else { s with buffer := s.buffer ++ [j], accepted := s.accepted ++ [j] }
  | Action.close => { s with closed := true }
  | Action.recv w =>
      if w ∈ s.terminated then s
      else
        match s.buffer with
        | j :: rest => { s with buffer := rest, delivered := s.delivered ++ [(j, w)] }
        | [] => if s.closed then { s with terminated := s.terminated ++ [w] } else s

/-- Run a whole schedule from the initial state. -/
def run (acts : List Action) : SysState :=
  acts.foldl step SysState.init

/-- The channel invariant: the jobs accepted so far are exactly the jobs
delivered so far (in delivery order) followed by the jobs still buffered
(in FIFO order). -/
def ChanInv (s : SysState) : Prop :=
  s.accepted = (s.delivered.map Prod.fst) ++ s.buffer

lemma chanInv_step (s : SysState) (a : Action) (h : ChanInv s) :
    ChanInv (step s a) := by
  cases a with
  | send j =>
      by_cases hc : s.closed
      · simpa [step, hc] using h
      · simp only [ChanInv, step, hc, if_neg, Bool.false_eq_true, not_false_iff]
        simp [ChanInv] at h
        simp [h, List.append_assoc]
  | close => simpa [step, ChanInv] using h
  | recv w =>
      by_cases ht : w ∈ s.terminated
      · simpa [step, ht] using h
      · cases hb : s.buffer with
        | nil =>
            by_cases hc : s.closed
            · simp only [ChanInv, step, ht, hb, hc] at h ⊢
              simpa using h
            · simp only [ChanInv, step, ht, hb, hc] at h ⊢
              simpa [hb] using h
        | cons j rest =>
            simp only [ChanInv, step, ht, hb] at h ⊢
            simp only [Bool.false_eq_true, if_false, List.map_append, List.map_cons,
              List.map_nil, List.append_assoc, List.cons_append, List.nil_append]
            simpa [hb] using h

lemma chanInv_foldl (acts : List Action) (s : SysState) (h : ChanInv s) :
    ChanInv (acts.foldl step s) := by
  induction acts generalizing s with
  | nil => exact h
  | cons a t ih => exact ih (step s a) (chanInv_step s a h)

lemma chanInv_run (acts : List Action) : ChanInv (run acts) :=
  chanInv_foldl acts SysState.init rfl

/-- In a list of pairs whose first components are pairwise distinct, the
first component determines the second. -/
lemma snd_unique_of_nodup_fst {l : List (Nat × Nat)}
    (h : (l.map Prod.fst).Nodup) {j w w' : Nat}
    (h1 : (j, w) ∈ l) (h2 : (j, w') ∈ l) : w = w' := by
  induction l with
  | nil => simp at h1
  | cons q t ih =>
      simp only [List.map_cons, List.nodup_cons] at h
      rcases List.mem_cons.mp h1 with h1' | h1' <;>
        rcases List.mem_cons.mp h2 with h2' | h2'
      · exact congrArg Prod.snd (h1'.trans h2'.symm)
      · exfalso
        apply h.1
        have : q.1 = j := by rw [← h1']
        rw [this]
        exact List.mem_map_of_mem Prod.fst h2'
      · exfalso
        apply h.1
        have : q.1 = j := by rw [← h2']
        rw [this]
        exact List.mem_map_of_mem Prod.fst h1'
      · exact ih h.2 h1' h2'

/- ### Theorems: exactly-once delivery and FIFO order -/

/-- C6: for every schedule, delivery is FIFO with respect to submission
order: the accepted jobs, in submission order, are exactly the delivered
jobs in delivery order followed by the still-buffered jobs — so the
sequence of dequeued jobs is always a prefix of the submission sequence,
and a job submitted earlier is never dequeued after a job submitted
later. -/
theorem delivery_fifo (acts : List Action) :
    (run acts).accepted
      = ((run acts).delivered.map Prod.fst) ++ (run acts).buffer :=
  chanInv_run acts

/-- C1: for every schedule whose accepted jobs are pairwise distinct, no
job is delivered twice (in particular never to two workers — each
delivered job determines its unique worker), no accepted job is lost
(it is delivered or still buffered), and once the buffer is drained every
accepted job has been delivered exactly once, in order. -/
theorem jobs_exactly_once (acts : List Action)
    (hnodup : (run acts).accepted.Nodup) :
    ((run acts).delivered.map Prod.fst).Nodup ∧
    (∀ j ∈ (run acts).accepted,
        j ∈ (run acts).delivered.map Prod.fst ∨ j ∈ (run acts).buffer) ∧
    ((run acts).buffer = [] →
        (run acts).delivered.map Prod.fst = (run acts).accepted) ∧
    (∀ j w w', (j, w) ∈ (run acts).delivered → (j, w') ∈ (run acts).delivered →
        w = w') := by
  have hinv := chanInv_run acts
  unfold ChanInv at hinv
  have hnd : (((run acts).delivered.map Prod.fst) ++ (run acts).buffer).Nodup := by
    rw [← hinv]; exact hnodup
  have hndfst : ((run acts).delivered.map Prod.fst).Nodup := hnd.of_append_left
  refine ⟨hndfst, ?_, ?_, ?_⟩
  · intro j hj
    rw [hinv] at hj
    exact List.mem_append.mp hj
  · intro hbuf
    rw [hinv, hbuf, List.append_nil]
  · intro j w w' h1 h2
    exact snd_unique_of_nodup_fst hndfst h1 h2

/-- C1 witness: a concrete schedule — two submissions, two deliveries to
workers `5` and `7`, the sender dropped, then worker `5` observing closure
— has distinct accepted jobs and satisfies the exactly-once conclusions. -/
theorem jobs_exactly_once_witness :
    (run [Action.send 0, Action.send 1, Action.recv 5, Action.close,
          Action.recv 7, Action.recv 5]).accepted.Nodup ∧
    ((run [Action.send 0, Action.send 1, Action.recv 5, Action.close,
           Action.recv 7, Action.recv 5]).delivered.map Prod.fst).Nodup :=
  ⟨by decide,
   (jobs_exactly_once
      [Action.send 0, Action.send 1, Action.recv 5, Action.close,
       Action.recv 7, Action.recv 5] (by decide)).1⟩

/- ### The worker loop (lib.rs 117–124) -/

/-- Termination behaviour of a received job's body: the Rust `Job` is an
opaque `FnOnce()`, so only whether `job()` returns normally or panics is
modelled. -/
inductive JobKind where
  | normal
  | panics
deriving Repr, DecidableEq

/-- The result of one `receiver.lock().unwrap().recv()` (lib.rs 118):
`Ok(job)` or `Err(_)` (sender dropped and buffer empty). -/
inductive RecvMsg where
  | ok (j : JobKind)
  | err
deriving Repr, DecidableEq

/-- Status of a worker thread after a loop iteration. -/
inductive WStatus where
  | running
  | finished
  | panicked
deriving Repr, DecidableEq

/-- One iteration of the worker loop (lib.rs 117–124): on `Ok(job)` the
worker calls `job()` with no unwind boundary — a normally returning job
brings the worker back to the receive, a panicking job propagates and
terminates the thread; on `Err(_)` the loop `break`s.  The second
component records which job body was run, if any. -/
def workerStep : WStatus → RecvMsg → WStatus × Option JobKind
  | WStatus.running, RecvMsg.ok JobKind.normal => (WStatus.running, some JobKind.normal)
  | WStatus.running, RecvMsg.ok JobKind.panics => (WStatus.panicked, some JobKind.panics)
  | WStatus.running, RecvMsg.err => (WStatus.finished, none)
  | s, _ => (s, none)

/-- The two-outcome loop of the spec's Worker state machine, written from
the spec's words: a received Job is executed and the worker returns to
receive; the closed-and-empty signal terminates the loop.  Used to compare
the code's `workerStep` against the specified machine. -/
def specWorkerLoopStep : RecvMsg → WStatus × Option JobKind
  | RecvMsg.ok j => (WStatus.running, some j)
  | RecvMsg.err => (WStatus.finished, none)

/- ### Theorems: worker state machine -/

/-- C5: for every receive outcome whose job (if any) runs to completion,
one iteration of the running worker's loop behaves exactly as the spec's
two-state machine: a received job is executed and the worker returns to
receive; the closed-and-empty signal (`Err(_)`) makes the worker exit its
loop; there is no other outcome. -/
theorem worker_loop_two_outcomes (m : RecvMsg)
    (h : ∀ j, m = RecvMsg.ok j → j = JobKind.normal) :
    workerStep WStatus.running m = specWorkerLoopStep m := by
  cases m with
  | ok j =>
      have hj := h j rfl
      subst hj
      rfl
  | err => rfl

/-- C5 witness: receiving a normally-completing job keeps the worker in
the running state having executed it, matching the spec machine. -/
theorem worker_loop_two_outcomes_witness :
    workerStep WStatus.running (RecvMsg.ok JobKind.normal)
      = specWorkerLoopStep (RecvMsg.ok JobKind.normal) :=
  worker_loop_two_outcomes (RecvMsg.ok JobKind.normal)
    (fun _ hj => by cases hj; rfl)

/-- C8: the code at the failing input — a running worker receiving a job
whose body panics.  `job()` (lib.rs 121) has no recover boundary, so the
panic propagates and the worker thread dies instead of returning to the
receive loop: the claimed isolation does not hold in this code. -/
theorem panicking_job_kills_worker :
    workerStep WStatus.running (RecvMsg.ok JobKind.panics)
      = (WStatus.panicked, some JobKind.panics) ∧
    (workerStep WStatus.running (RecvMsg.ok JobKind.panics)).1 ≠ WStatus.running := by
  exact ⟨rfl, by decide⟩

end SimpleServer
